import Mathlib

/-!
Shallow embedding of the `embedder` Go module (factory.go, config.go,
ollama.go) and verification of its specified properties.

Modelling conventions:
* Go strings are modelled as Lean `String`s; the texts exercised here are
  ASCII, where Go's byte-level `len`/slicing coincides with character count.
* `time.Duration` is an `Int` (nanoseconds, as in Go).
* `map[string]interface{}` option values are modelled by the tagged union
  `OptionValue`; a Go nil map is `Option.none`, a non-nil map is
  `Option.some` of an association list.
* Go errors are modelled by their observable content: a `String` message,
  or a structured value (`EmbedError`) when the code wraps an index.
* The HTTP transport is an external collaborator: it is passed in as an
  oracle function (`transport` for GET endpoints returning a status code,
  `api` for the embeddings endpoint keyed by prompt, the model and base
  URL being fixed per embedder instance).
* Methods that mutate a receiver in Go return the updated receiver here;
  a method returning `(value, error)` returns an `Except` or a pair.
-/

/-- Tagged union for YAML / `interface{}` option values
(`map[string]interface{}` in `Config.Options`). -/
inductive OptionValue where
  | str (s : String)
  | num (n : Int)
  | boolean (b : Bool)
  deriving DecidableEq

/-- `Config` from factory.go: provider, base URL, model, timeout, options.
`Options = none` models a Go nil map, `some m` a non-nil map. -/
structure Config where
  Provider : String
  BaseURL : String
  Model : String
  Timeout : Int
  Options : Option (List (String × OptionValue))
  deriving DecidableEq

/-- `DefaultConfig` from factory.go: the process-wide default configuration
(`30 * time.Second` is 30000000000 nanoseconds; `make(map[...])` is an
empty non-nil map). -/
def DefaultConfig : Config :=
  { Provider := "ollama"
    BaseURL := "http://localhost:11434"
    Model := "qwen2.5:7b"
    Timeout := 30000000000
    Options := some [] }

/-- `ProviderFunc` from factory.go: `func(config Config) (Embedder, error)`,
with the backend type `β` abstract. -/
def ProviderFunc (β : Type) : Type := Config → Except String β

/-- `Factory` from factory.go: its `providers` Go map is modelled as an
association list with unique keys (uniqueness is maintained by
`RegisterProvider`); the mutex and logger carry no observable state. -/
structure Factory (β : Type) where
  providers : List (String × ProviderFunc β)

/-- `Factory.RegisterProvider`: if `name` is already present it returns the
error `provider <name> already registered` and leaves the map untouched,
otherwise it inserts the entry. Returns the updated factory together with
the Go error (`none` = nil). -/
def Factory.RegisterProvider (f : Factory β) (name : String) (p : ProviderFunc β) :
    Factory β × Option String :=
  match f.providers.lookup name with
  | some _ => (f, some ("provider " ++ name ++ " already registered"))
  | none => ({ providers := f.providers ++ [(name, p)] }, none)

/-- `Factory.Create`: looks `provider` up; on a miss returns
`unsupported provider: <provider>`; on a hit invokes the constructor with
the default configuration whose `Provider` field is overwritten. -/
def Factory.Create (f : Factory β) (provider : String) : Except String β :=
  match f.providers.lookup provider with
  | none => .error ("unsupported provider: " ++ provider)
  | some providerFunc => providerFunc { DefaultConfig with Provider := provider }

/-- `Factory.CreateWithConfig`: looks up `config.Provider` and passes
`config` through to the constructor unmodified. -/
def Factory.CreateWithConfig (f : Factory β) (config : Config) : Except String β :=
  match f.providers.lookup config.Provider with
  | none => .error ("unsupported provider: " ++ config.Provider)
  | some providerFunc => providerFunc config

/-- `Factory.ListProviders`: the registered names (Go map iteration order is
unspecified; the insertion order of the model's association list is one
admissible order). -/
def Factory.ListProviders (f : Factory β) : List String :=
  f.providers.map (fun e => e.1)

/-- `strings.TrimSuffix(baseURL, "/")`: drop one trailing `'/'` if present
(stated on the character list; the suffix is the single character `/`). -/
def trimSuffixSlash (s : String) : String :=
  if s.data.getLast? = some '/' then String.mk s.data.dropLast else s

/-- `OllamaEmbedder` from ollama.go with its observable fields; the
`httpClient` and `logger` fields carry no observable state. Embedding
vector entries are an abstract type `α` (float32 in Go). -/
structure OllamaEmbedder (α : Type) where
  baseURL : String
  model : String
  dimension : Nat
  deriving DecidableEq

/-- Error structure produced by
`fmt.Errorf("failed to embed text at index %d: %w", i, err)` in
`OllamaEmbedder.Embed`: the zero-based index and the wrapped error's
message (the `errors.Unwrap` target). -/
structure EmbedError where
  index : Nat
  wrapped : String
  deriving DecidableEq

/-- The full message of the error built by
`fmt.Errorf("failed to embed text at index %d: %w", i, err)`. -/
def EmbedError.message (err : EmbedError) : String :=
  "failed to embed text at index " ++ toString err.index ++ ": " ++ err.wrapped

/-- `OllamaEmbedder.getTextPreview`: the text itself when at most 50 long,
otherwise its first 47 characters followed by the truncation marker
(Go measures bytes; characters coincide for the ASCII texts used here). -/
def getTextPreview (text : String) : String :=
  if text.length ≤ 50 then text
  else String.mk (text.data.take 47) ++ "..."

/-- `OllamaEmbedder.embedSingle`: one request to the embeddings endpoint
for `text`; a transport error is wrapped as `failed to embed text: <err>`;
the response vector is returned (the float64→float32 narrowing is the
identity on the abstract entry type `α`). The oracle `api` stands for the
POST to `<baseURL>/api/embeddings` with this embedder's fixed model. -/
def embedSingle (api : String → Except String (List α)) (text : String) :
    Except String (List α) :=
  match api text with
  | .error err => .error ("failed to embed text: " ++ err)
  | .ok emb => .ok emb

/-- Observable outcome of one `Embed`/`BatchEmbed` call: the returned
`([][]float32, error)` pair (`.error` models a nil result with a non-nil
error), the texts passed to `embedSingle` in call order, and the
`text_preview` fields written by `logger.Error` on failure. -/
structure EmbedOutcome (α : Type) where
  res : Except EmbedError (List (List α))
  calls : List String
  loggedPreviews : List String

/-- The `for i, text := range texts` loop of `OllamaEmbedder.Embed`,
carrying the running index `i`: on the first failing `embedSingle` call the
loop stops, logs the text preview, and returns the wrapped error with a nil
result; otherwise the embedding is appended and the loop continues. -/
def embedLoop (eS : String → Except String (List α)) (i : Nat) :
    List String → EmbedOutcome α
  | [] => ⟨.ok [], [], []⟩
  | t :: ts =>
    match eS t with
    | .error err => ⟨.error ⟨i, err⟩, [t], [getTextPreview t]⟩
    | .ok v =>
      let rest := embedLoop eS (i + 1) ts
      ⟨rest.res.map (fun r => v :: r), t :: rest.calls, rest.loggedPreviews⟩

/-- `OllamaEmbedder.Embed`: the early return `[][]float32{}` for an empty
input coincides with the loop's base case, so the whole body is the loop
started at index 0. -/
def OllamaEmbedder.Embed (_e : OllamaEmbedder α)
    (api : String → Except String (List α)) (texts : List String) :
    EmbedOutcome α :=
  embedLoop (embedSingle api) 0 texts

/-- The `for i := 0; i < len(texts); i += batchSize` loop of
`OllamaEmbedder.BatchEmbed`: each round takes the chunk
`texts[i:min(i+bs, len)]`, runs `Embed` on it, aborts with the chunk's
error unmodified on failure, and otherwise appends the chunk's embeddings.
It is only entered with `bs ≥ 1` (guaranteed by `BatchEmbed`'s
normalisation of non-positive batch sizes), where
`ts.drop (bs - 1) = (t :: ts).drop bs` is the remainder after the chunk. -/
def batchLoop (eS : String → Except String (List α)) (bs : Nat) :
    List String → EmbedOutcome α
  | [] => ⟨.ok [], [], []⟩
  | t :: ts =>
    let batchOut := embedLoop eS 0 ((t :: ts).take bs)
    match batchOut.res with
    | .error err => ⟨.error err, batchOut.calls, batchOut.loggedPreviews⟩
    | .ok embs =>
      let rest := batchLoop eS bs (ts.drop (bs - 1))
      ⟨rest.res.map (fun r => embs ++ r), batchOut.calls ++ rest.calls,
        batchOut.loggedPreviews ++ rest.loggedPreviews⟩
termination_by texts => texts.length
decreasing_by
  simp only [List.length_drop, List.length_cons]
  omega

/-- `OllamaEmbedder.BatchEmbed`: `batchSize` is a Go `int`; a non-positive
value is replaced by `len(texts)` before the chunk loop runs. -/
def OllamaEmbedder.BatchEmbed (_e : OllamaEmbedder α)
    (api : String → Except String (List α)) (texts : List String)
    (batchSize : Int) : EmbedOutcome α :=
  let bs : Nat := if batchSize ≤ 0 then texts.length else batchSize.toNat
  batchLoop (embedSingle api) bs texts

/-- `OllamaEmbedder.GetDimension`: returns the cached dimension. -/
def OllamaEmbedder.GetDimension (e : OllamaEmbedder α) : Nat :=
  e.dimension

/-- `OllamaEmbedder.GetModel`: returns the configured model name. -/
def OllamaEmbedder.GetModel (e : OllamaEmbedder α) : String :=
  e.model

/-- `OllamaEmbedder.Health`: GET `<baseURL>/api/version`; a transport error
is returned as-is, a non-200 status becomes
`ollama health check failed: HTTP <code>`. The method body assigns no
field of the receiver, so the returned receiver state is `e` itself.
`transport` maps the request URL to a transport error or a status code. -/
def OllamaEmbedder.Health (e : OllamaEmbedder α)
    (transport : String → Except String Nat) :
    OllamaEmbedder α × Except String Unit :=
  let url := e.baseURL ++ "/api/version"
  match transport url with
  | .error err => (e, .error err)
  | .ok status =>
    if status ≠ 200 then
      (e, .error ("ollama health check failed: HTTP " ++ toString status))
    else (e, .ok ())

/-- `OllamaEmbedder.detectDimension`: one probe `embedSingle` call with the
sentinel text `"test"`; on success the result's length is cached as the
dimension. -/
def OllamaEmbedder.detectDimension (e : OllamaEmbedder α)
    (api : String → Except String (List α)) :
    Except String (OllamaEmbedder α) :=
  match embedSingle api "test" with
  | .error err => .error err
  | .ok embedding => .ok { e with dimension := embedding.length }

/-- Outcome of `NewOllamaEmbedder`: the returned `(embedder, error)` pair
and the prompts sent to the embeddings endpoint during construction. -/
structure ConstructOutcome (α : Type) where
  result : Except String (OllamaEmbedder α)
  embedApiCalls : List String

/-- `NewOllamaEmbedder` from ollama.go: trim the base URL, run the health
probe (wrapping its error as `failed to connect to Ollama: <err>`), then
`detectDimension` (wrapping its error as
`failed to detect embedding dimension: <err>`); only then return the ready
embedder. The single embeddings-endpoint call is the probe inside
`detectDimension`. -/
def NewOllamaEmbedder (transport : String → Except String Nat)
    (api : String → Except String (List α)) (config : Config) :
    ConstructOutcome α :=
  let e : OllamaEmbedder α :=
    { baseURL := trimSuffixSlash config.BaseURL
      model := config.Model
      dimension := 0 }
  match (e.Health transport).2 with
  | .error err => ⟨.error ("failed to connect to Ollama: " ++ err), []⟩
  | .ok _ =>
    match e.detectDimension api with
    | .error err => ⟨.error ("failed to detect embedding dimension: " ++ err), ["test"]⟩
    | .ok ready => ⟨.ok ready, ["test"]⟩

/-- `LoadConfig` from config.go. Reading and YAML-parsing the file are
external collaborators, abstracted as the `file` argument: `.error` is a
read or parse failure, `.ok c` the parsed `Config` (YAML leaves absent
fields at their zero value: `""`, `0`, nil map). Each empty/zero field is
then back-filled from `DefaultConfig`. -/
def LoadConfig (file : Except String Config) : Except String Config :=
  match file with
  | .error err => .error err
  | .ok parsed =>
    let c1 := if parsed.Provider = "" then { parsed with Provider := DefaultConfig.Provider } else parsed
    let c2 := if c1.BaseURL = "" then { c1 with BaseURL := DefaultConfig.BaseURL } else c1
    let c3 := if c2.Model = "" then { c2 with Model := DefaultConfig.Model } else c2
    let c4 := if c3.Timeout = 0 then { c3 with Timeout := DefaultConfig.Timeout } else c3
    let c5 := if c4.Options = none then { c4 with Options := some [] } else c4
    .ok c5

/-- `EmbedderConfig` from config.go: a wrapper owning one `Config`. -/
structure EmbedderConfig where
  config : Config
  deriving DecidableEq

/-- `NewConfig`: an `EmbedderConfig` holding the default configuration. -/
def NewConfig : EmbedderConfig :=
  { config := DefaultConfig }

/-- `EmbedderConfig.WithProvider`: sets the provider field. -/
def EmbedderConfig.WithProvider (c : EmbedderConfig) (provider : String) : EmbedderConfig :=
  { c with config := { c.config with Provider := provider } }

/-- `EmbedderConfig.WithBaseURL`: sets the base-URL field. -/
def EmbedderConfig.WithBaseURL (c : EmbedderConfig) (baseURL : String) : EmbedderConfig :=
  { c with config := { c.config with BaseURL := baseURL } }

/-- `EmbedderConfig.WithModel`: sets the model field. -/
def EmbedderConfig.WithModel (c : EmbedderConfig) (model : String) : EmbedderConfig :=
  { c with config := { c.config with Model := model } }

/-- `EmbedderConfig.WithTimeout`: sets the timeout field. -/
def EmbedderConfig.WithTimeout (c : EmbedderConfig) (timeout : Int) : EmbedderConfig :=
  { c with config := { c.config with Timeout := timeout } }

/-- `EmbedderConfig.WithOption`: lazily initialises a nil options map, then
stores the key/value pair (`AList`-style insert replacing an existing key,
as a Go map assignment does). -/
def EmbedderConfig.WithOption (c : EmbedderConfig) (key : String) (value : OptionValue) :
    EmbedderConfig :=
  let opts := match c.config.Options with
    | none => []
    | some m => m
  { c with config := { c.config with
      Options := some ((key, value) :: opts.filter (fun e => e.1 ≠ key)) } }

/-- Alias for the file-level `LoadConfig`, needed because inside
`EmbedderConfig.LoadConfig` the bare name would resolve to the method
itself. -/
def loadConfigFile (file : Except String Config) : Except String Config :=
  LoadConfig file

/-- `EmbedderConfig.LoadConfig`: delegates to the file-level `LoadConfig`;
on failure returns the error leaving `c.config` untouched, on success
overwrites the whole configuration (`c.config = *config`). -/
def EmbedderConfig.LoadConfig (c : EmbedderConfig) (file : Except String Config) :
    EmbedderConfig × Option String :=
  match loadConfigFile file with
  | .error err => (c, some err)
  | .ok loaded => ({ config := loaded }, none)

/-- `EmbedderConfig.GetConfig`: returns the owned configuration. -/
def EmbedderConfig.GetConfig (c : EmbedderConfig) : Config :=
  c.config

/-- The `ProviderFunc` registered for `"ollama"` by `NewFactory`:
`func(config Config) (Embedder, error) { return NewOllamaEmbedder(config) }`,
with the construction-time transport/API oracles made explicit. -/
def ollamaProvider (transport : String → Except String Nat)
    (api : String → Except String (List α)) : ProviderFunc (OllamaEmbedder α) :=
  fun config => (NewOllamaEmbedder transport api config).result

/-- `NewFactory` from factory.go: a factory with an empty provider map on
which `RegisterProvider("ollama", ...)` is immediately called (the returned
error is discarded by the source, as it is here). -/
def NewFactory (transport : String → Except String Nat)
    (api : String → Except String (List α)) : Factory (OllamaEmbedder α) :=
  (Factory.RegisterProvider { providers := [] } "ollama" (ollamaProvider transport api)).1

/-- `defaultFactory`, the process-wide factory instance:
`var defaultFactory = NewFactory()`. -/
def defaultFactory (transport : String → Except String Nat)
    (api : String → Except String (List α)) : Factory (OllamaEmbedder α) :=
  NewFactory transport api

/-- `EmbedderBuilder` from factory.go: one `EmbedderConfig` plus a shared
factory reference. -/
structure EmbedderBuilder (β : Type) where
  config : EmbedderConfig
  factory : Factory β

/-- `New` from factory.go: a builder whose configuration starts from the
given provider name, the default base URL / model / timeout, and a fresh
empty (non-nil) options map, backed by the process-wide factory. -/
def New (transport : String → Except String Nat)
    (api : String → Except String (List α)) (provider : String) :
    EmbedderBuilder (OllamaEmbedder α) :=
  { config :=
      { config :=
          { Provider := provider
            BaseURL := DefaultConfig.BaseURL
            Model := DefaultConfig.Model
            Timeout := DefaultConfig.Timeout
            Options := some [] } }
    factory := defaultFactory transport api }

/-- `EmbedderBuilder.WithBaseURL`: delegates to the configuration's setter
and returns the builder. -/
def EmbedderBuilder.WithBaseURL (b : EmbedderBuilder β) (baseURL : String) :
    EmbedderBuilder β :=
  { b with config := b.config.WithBaseURL baseURL }

/-- `EmbedderBuilder.WithModel`: delegates to the configuration's setter
and returns the builder. -/
def EmbedderBuilder.WithModel (b : EmbedderBuilder β) (model : String) :
    EmbedderBuilder β :=
  { b with config := b.config.WithModel model }

/-- `EmbedderBuilder.WithTimeout` from factory.go: the body is only
`return b` — the accepted value (an `interface{}` in the source, modelled
as the duration it is meant to carry) is never applied to the
configuration. -/
def EmbedderBuilder.WithTimeout (b : EmbedderBuilder β) (_timeout : Int) :
    EmbedderBuilder β :=
  b

/-- `EmbedderBuilder.WithOption`: delegates to the configuration's setter
and returns the builder. -/
def EmbedderBuilder.WithOption (b : EmbedderBuilder β) (key : String)
    (value : OptionValue) : EmbedderBuilder β :=
  { b with config := b.config.WithOption key value }

/-- `EmbedderBuilder.LoadConfig`: delegates to
`EmbedderConfig.LoadConfig` on the owned configuration. -/
def EmbedderBuilder.LoadConfig (b : EmbedderBuilder β) (file : Except String Config) :
    EmbedderBuilder β × Option String :=
  let out := b.config.LoadConfig file
  ({ b with config := out.1 }, out.2)

/-- `EmbedderBuilder.Build`: delegates to the factory's `CreateWithConfig`
with the accumulated configuration. -/
def EmbedderBuilder.Build (b : EmbedderBuilder β) : Except String β :=
  b.factory.CreateWithConfig b.config.GetConfig

/-- Helper: a key absent from the mapped-out name list is not found by
`List.lookup`. -/
theorem lookup_eq_none_of_not_mem {l : List (String × γ)} {n : String}
    (h : n ∉ l.map (fun e => e.1)) : l.lookup n = none := by
  induction l with
  | nil => rfl
  | cons a l ih =>
    rcases a with ⟨k, v⟩
    simp only [List.map_cons, List.mem_cons, not_or] at h
    cases hk : (n == k) with
    | true => exact absurd (eq_of_beq hk) h.1
    | false =>
      simp only [List.lookup]
      rw [hk]
      exact ih h.2

/-- Helper: looking a key up past a block that does not contain it. -/
theorem lookup_append_of_eq_none {l1 l2 : List (String × γ)} {n : String}
    (h : l1.lookup n = none) : (l1 ++ l2).lookup n = l2.lookup n := by
  induction l1 with
  | nil => rfl
  | cons a l ih =>
    rcases a with ⟨k, v⟩
    simp only [List.cons_append, List.lookup] at h ⊢
    cases hk : (n == k) with
    | false =>
      rw [hk] at h
      exact ih h
    | true =>
      rw [hk] at h
      exact Option.noConfusion h

/-- C10: every factory built by `NewFactory` (the process-wide
`defaultFactory` included) already has `"ollama"` registered:
`ListProviders` contains `"ollama"`, and a fresh
`RegisterProvider("ollama", ...)` fails with the duplicate-registration
error, leaving the factory unchanged. -/
theorem newFactory_registers_ollama (transport : String → Except String Nat)
    (api : String → Except String (List α)) (p : ProviderFunc (OllamaEmbedder α)) :
    "ollama" ∈ (NewFactory transport api).ListProviders ∧
    (NewFactory transport api).RegisterProvider "ollama" p =
      (NewFactory transport api, some "provider ollama already registered") ∧
    defaultFactory transport api = NewFactory transport api := by
  exact ⟨by simp [NewFactory, Factory.RegisterProvider, Factory.ListProviders], rfl, rfl⟩

/-- C1: if a first `RegisterProvider n p1` on `f` succeeds (producing `f1`),
then a second registration of `n` returns the duplicate-provider error and
the unchanged factory, and `n` still resolves (through the map, `Create`,
and `CreateWithConfig`) to the first constructor `p1`. -/
theorem registerProvider_second_fails (f f1 : Factory β) (n : String)
    (p1 p2 : ProviderFunc β) (cfg : Config)
    (h : f.RegisterProvider n p1 = (f1, none)) (hcfg : cfg.Provider = n) :
    f1.RegisterProvider n p2 =
      (f1, some ("provider " ++ n ++ " already registered")) ∧
    f1.providers.lookup n = some p1 ∧
    f1.Create n = p1 { DefaultConfig with Provider := n } ∧
    f1.CreateWithConfig cfg = p1 cfg := by
  unfold Factory.RegisterProvider at h
  rcases hl : f.providers.lookup n with _ | q
  · rw [hl] at h
    simp only [Prod.mk.injEq] at h
    have hf1 : f1 = { providers := f.providers ++ [(n, p1)] } := h.1.symm
    have hlook : f1.providers.lookup n = some p1 := by
      rw [hf1]
      rw [lookup_append_of_eq_none hl]
      simp [List.lookup]
    refine ⟨?_, hlook, ?_, ?_⟩
    · unfold Factory.RegisterProvider
      rw [hlook]
    · unfold Factory.Create
      rw [hlook]
    · unfold Factory.CreateWithConfig
      rw [hcfg, hlook]
  · rw [hl] at h
    simp at h

/-- Witness for `registerProvider_second_fails` on a two-element mock
scenario mirroring the repository's `TestFactory`. -/
theorem registerProvider_second_fails_witness :
    (Factory.RegisterProvider ({ providers := [] } : Factory Nat) "mock"
        (fun _ => Except.ok 1) =
      (({ providers := [("mock", fun _ => Except.ok 1)] } : Factory Nat), none)) ∧
    (Config.Provider { DefaultConfig with Provider := "mock" } = "mock") ∧
    (Factory.RegisterProvider
        ({ providers := [("mock", fun _ => Except.ok 1)] } : Factory Nat)
        "mock" (fun _ => Except.ok 2) =
      (({ providers := [("mock", fun _ => Except.ok 1)] } : Factory Nat),
        some "provider mock already registered")) ∧
    (List.lookup "mock"
        ([("mock", fun _ => Except.ok 1)] : List (String × ProviderFunc Nat)) =
      some (fun _ => Except.ok 1)) ∧
    (Factory.Create ({ providers := [("mock", fun _ => Except.ok 1)] } : Factory Nat)
        "mock" = Except.ok 1) ∧
    (Factory.CreateWithConfig
        ({ providers := [("mock", fun _ => Except.ok 1)] } : Factory Nat)
        { DefaultConfig with Provider := "mock" } = Except.ok 1) := by
  have h := registerProvider_second_fails (β := Nat) { providers := [] }
    { providers := [("mock", fun _ => Except.ok 1)] } "mock"
    (fun _ => Except.ok 1) (fun _ => Except.ok 2)
    { DefaultConfig with Provider := "mock" } rfl rfl
  exact ⟨rfl, rfl, h.1, h.2.1, h.2.2.1, h.2.2.2⟩

/-- C7: `Create n` fails with the unknown-provider error when `n` is not
registered, and otherwise invokes the registered constructor on the default
configuration with its provider field set to `n`, passing the result
through unmodified. -/
theorem factory_create_spec (f : Factory β) (n : String) (p : ProviderFunc β) :
    (n ∉ f.ListProviders → f.Create n = .error ("unsupported provider: " ++ n)) ∧
    (f.providers.lookup n = some p →
      f.Create n = p { DefaultConfig with Provider := n }) := by
  constructor
  · intro hmem
    unfold Factory.Create
    rw [lookup_eq_none_of_not_mem hmem]
  · intro hl
    unfold Factory.Create
    rw [hl]

/-- Witness for `factory_create_spec`: the unknown-provider branch on an
empty factory and the success branch on a mock registration. -/
theorem factory_create_spec_witness :
    (Factory.Create ({ providers := [] } : Factory Nat) "nonexistent" =
      Except.error "unsupported provider: nonexistent") ∧
    (Factory.Create { providers := [("mock", fun _ => Except.ok 5)] } "mock" =
      Except.ok (5 : Nat)) := by
  refine ⟨(factory_create_spec { providers := [] } "nonexistent"
      (fun _ => Except.ok 5)).1 (by simp [Factory.ListProviders]), ?_⟩
  exact (factory_create_spec { providers := [("mock", fun _ => Except.ok 5)] }
    "mock" (fun _ => Except.ok 5)).2 rfl

/-- The back-fill rule as the spec words it: every empty/zero field of a
parsed configuration is replaced by the corresponding `DefaultConfig`
field and a nil options map by an empty one, while every other field is
kept exactly. Stated from the spec to compare `LoadConfig` against. -/
def specBackfill (c : Config) : Config :=
  { Provider := if c.Provider = "" then DefaultConfig.Provider else c.Provider
    BaseURL := if c.BaseURL = "" then DefaultConfig.BaseURL else c.BaseURL
    Model := if c.Model = "" then DefaultConfig.Model else c.Model
    Timeout := if c.Timeout = 0 then DefaultConfig.Timeout else c.Timeout
    Options := some (c.Options.getD []) }

/-- Helper: `LoadConfig` on a successfully parsed file back-fills exactly
as `specBackfill` describes. -/
theorem loadConfig_ok_eq (c : Config) :
    LoadConfig (.ok c) = .ok (specBackfill c) := by
  rcases c with ⟨P, B, M, T, O⟩
  cases O <;>
    simp only [LoadConfig, specBackfill, Option.getD] <;>
    split_ifs <;>
    simp_all

/-- Helper: the back-fill keeps a fully-specified configuration unchanged. -/
theorem specBackfill_of_full (c : Config) (hP : c.Provider ≠ "")
    (hB : c.BaseURL ≠ "") (hM : c.Model ≠ "") (hT : c.Timeout ≠ 0)
    (hO : c.Options ≠ none) : specBackfill c = c := by
  rcases c with ⟨P, B, M, T, O⟩
  rcases O with _ | m
  · exact absurd rfl hO
  · simp only [specBackfill] at *
    rw [if_neg hP, if_neg hB, if_neg hM, if_neg hT]
    simp

/-- A parsed file that specifies only the model key, leaving every other
field at its zero value. -/
def onlyModelFileConfig : Config :=
  { Provider := ""
    BaseURL := ""
    Model := "nomic-embed-text"
    Timeout := 0
    Options := none }

/-- C5: a successfully parsed configuration file is loaded by back-filling
every empty/zero field (nil options map included) from the process-wide
defaults and keeping every specified field exactly; in particular a file
specifying only `model` yields the default configuration except `model`,
and a fully-specified file is returned with no default substitution. -/
theorem loadConfig_backfills_defaults (c full : Config)
    (hP : full.Provider ≠ "") (hB : full.BaseURL ≠ "") (hM : full.Model ≠ "")
    (hT : full.Timeout ≠ 0) (hO : full.Options ≠ none) :
    LoadConfig (.ok c) = .ok (specBackfill c) ∧
    LoadConfig (.ok full) = .ok full ∧
    LoadConfig (.ok onlyModelFileConfig) =
      .ok { DefaultConfig with Model := "nomic-embed-text" } := by
  refine ⟨loadConfig_ok_eq c, ?_, ?_⟩
  · rw [loadConfig_ok_eq, specBackfill_of_full full hP hB hM hT hO]
  · rfl

/-- Witness for `loadConfig_backfills_defaults` at the default
configuration, which is fully specified. -/
theorem loadConfig_backfills_defaults_witness :
    (Config.Provider DefaultConfig ≠ "" ∧ Config.BaseURL DefaultConfig ≠ "" ∧
     Config.Model DefaultConfig ≠ "" ∧ Config.Timeout DefaultConfig ≠ 0 ∧
     Config.Options DefaultConfig ≠ none) ∧
    (LoadConfig (.ok DefaultConfig) = .ok (specBackfill DefaultConfig) ∧
     LoadConfig (.ok DefaultConfig) = .ok DefaultConfig ∧
     LoadConfig (.ok onlyModelFileConfig) =
       .ok { DefaultConfig with Model := "nomic-embed-text" }) := by
  refine ⟨⟨by decide, by decide, by decide, by decide, by decide⟩, ?_⟩
  exact loadConfig_backfills_defaults DefaultConfig DefaultConfig
    (by decide) (by decide) (by decide) (by decide) (by decide)

/-- A parsed file in which every recognised key is absent, so every field
holds its zero value. -/
def emptyFileConfig : Config :=
  { Provider := "", BaseURL := "", Model := "", Timeout := 0, Options := none }

/-- C6 counterexample: a builder whose model was set to `"custom-model"` by
a chained setter loads a file that leaves `model` empty; the prior setter
value does not survive — the resulting model is the process-wide default,
so setter effects are discarded even where the file leaves a field empty. -/
theorem builder_loadConfig_keeps_no_setter_cex :
    ((((New (fun _ => Except.ok 200) (fun _ => Except.ok ([] : List Int))
          "ollama").WithModel "custom-model").LoadConfig
        (.ok emptyFileConfig)).1.config.config.Model = "qwen2.5:7b") ∧
    ("qwen2.5:7b" : String) ≠ "custom-model" := by
  exact ⟨rfl, by decide⟩

/-- C6 (amended): builder `LoadConfig` is atomic — on a read/parse failure
it returns the error and leaves the builder's configuration untouched; on
success it replaces the entire configuration with the loaded file
back-filled from the process-wide defaults, independent of (hence
discarding) all earlier setter effects, including for fields the file
leaves empty, which take the default rather than the builder's prior
value. -/
theorem builder_loadConfig_atomic (b : EmbedderBuilder β) (emsg : String)
    (c : Config) :
    b.LoadConfig (.error emsg) = (b, some emsg) ∧
    b.LoadConfig (.ok c) =
      ({ b with config := { config := specBackfill c } }, none) := by
  constructor
  · rfl
  · unfold EmbedderBuilder.LoadConfig EmbedderConfig.LoadConfig loadConfigFile
    rw [loadConfig_ok_eq]

/-- C9: the fluent builder's `WithTimeout` returns the builder with its
configuration (the timeout field included) completely unchanged; the
timeout is settable only by direct configuration construction
(`EmbedderConfig.WithTimeout`) or by file load. -/
theorem builder_withTimeout_noop (b : EmbedderBuilder β) (t t2 : Int)
    (c0 : EmbedderConfig) (c : Config) :
    b.WithTimeout t = b ∧
    (b.WithTimeout t).config.GetConfig.Timeout = b.config.GetConfig.Timeout ∧
    (c0.WithTimeout t2).config.Timeout = t2 ∧
    (c0.LoadConfig (.ok c)).1.config.Timeout =
      (if c.Timeout = 0 then DefaultConfig.Timeout else c.Timeout) := by
  refine ⟨rfl, rfl, rfl, ?_⟩
  unfold EmbedderConfig.LoadConfig loadConfigFile
  rw [loadConfig_ok_eq]
  rfl

/-- Shift an outcome's error index by `n` (relates a loop started at index
`n` to the loop started at 0). -/
def EmbedOutcome.shiftIdx (n : Nat) (o : EmbedOutcome α) : EmbedOutcome α :=
  { o with res := match o.res with
      | .ok r => .ok r
      | .error err => .error ⟨err.index + n, err.wrapped⟩ }

/-- Helper: the loop started at index `i` is the loop started at 0 with the
error index shifted by `i`. -/
theorem embedLoop_eq_shift (eS : String → Except String (List α))
    (ts : List String) : ∀ i, embedLoop eS i ts = (embedLoop eS 0 ts).shiftIdx i := by
  induction ts with
  | nil => intro i; rfl
  | cons t ts ih =>
    intro i
    simp only [embedLoop]
    cases ht : eS t with
    | error err => simp [EmbedOutcome.shiftIdx]
    | ok v =>
      rw [ih (i + 1), ih 1]
      cases hres : (embedLoop eS 0 ts).res with
      | error err =>
        simp [EmbedOutcome.shiftIdx, hres, Except.map]
        omega
      | ok r => simp [EmbedOutcome.shiftIdx, hres, Except.map]

/-- Helper: a loop run that returns a result called the primitive on every
input text in order and logged nothing. -/
theorem embedLoop_ok_calls (eS : String → Except String (List α)) :
    ∀ (ts : List String) (i : Nat) (r : List (List α)),
      (embedLoop eS i ts).res = .ok r →
      (embedLoop eS i ts).calls = ts ∧ (embedLoop eS i ts).loggedPreviews = [] := by
  intro ts
  induction ts with
  | nil => intro i r _; exact ⟨rfl, rfl⟩
  | cons t ts ih =>
    intro i r h
    cases ht : eS t with
    | error err => simp [embedLoop, ht] at h
    | ok v =>
      simp only [embedLoop, ht] at h ⊢
      cases hres : (embedLoop eS (i + 1) ts).res with
      | error err => rw [hres] at h; simp [Except.map] at h
      | ok rr =>
        obtain ⟨hc, hl⟩ := ih (i + 1) rr hres
        simp [hc, hl]

/-- Helper: a failing loop run reports an index within the input's range
(relative to the start index). -/
theorem embedLoop_error_lt (eS : String → Except String (List α)) :
    ∀ (ts : List String) (i : Nat) (err : EmbedError),
      (embedLoop eS i ts).res = .error err →
      i ≤ err.index ∧ err.index < i + ts.length := by
  intro ts
  induction ts with
  | nil => intro i err h; exact absurd h (by simp [embedLoop])
  | cons t ts ih =>
    intro i err h
    cases ht : eS t with
    | error e =>
      simp only [embedLoop, ht] at h
      obtain rfl : (⟨i, e⟩ : EmbedError) = err := by
        simpa using h
      simp
    | ok v =>
      simp only [embedLoop, ht] at h
      cases hres : (embedLoop eS (i + 1) ts).res with
      | error e2 =>
        rw [hres] at h
        simp only [Except.map] at h
        have heq : e2 = err := by simpa using h
        have hb := ih (i + 1) e2 hres
        rw [heq] at hb
        simp only [List.length_cons]
        omega
      | ok rr => rw [hres] at h; simp [Except.map] at h

/-- Helper: a failure within the first block of an input stops the loop
there, so the appended remainder is never visited. -/
theorem embedLoop_append_error (eS : String → Except String (List α)) :
    ∀ (xs ys : List String) (i : Nat) (err : EmbedError),
      (embedLoop eS i xs).res = .error err →
      embedLoop eS i (xs ++ ys) = embedLoop eS i xs := by
  intro xs
  induction xs with
  | nil => intro ys i err h; exact absurd h (by simp [embedLoop])
  | cons t xs ih =>
    intro ys i err h
    cases ht : eS t with
    | error e => simp [embedLoop, ht]
    | ok v =>
      simp only [embedLoop, ht] at h ⊢
      simp only [List.append_eq]
      cases hres : (embedLoop eS (i + 1) xs).res with
      | error e2 =>
        rw [ih ys (i + 1) e2 hres, hres]
      | ok rr => rw [hres] at h; simp [Except.map] at h

/-- Helper: a successful run over the first block continues into the
appended remainder with the index advanced by the block's length, the
block's embeddings prepended, and the block's calls prepended. -/
theorem embedLoop_append_ok (eS : String → Except String (List α)) :
    ∀ (xs ys : List String) (i : Nat) (r : List (List α)),
      (embedLoop eS i xs).res = .ok r →
      embedLoop eS i (xs ++ ys) =
        ⟨(embedLoop eS (i + xs.length) ys).res.map (fun r2 => r ++ r2),
          xs ++ (embedLoop eS (i + xs.length) ys).calls,
          (embedLoop eS (i + xs.length) ys).loggedPreviews⟩ := by
  intro xs
  induction xs with
  | nil =>
    intro ys i r h
    have : r = [] := by simpa [embedLoop] using h
    subst this
    simp only [List.nil_append, List.length_nil, Nat.add_zero]
    cases hres : (embedLoop eS i ys).res with
    | error e =>
      cases ho : embedLoop eS i ys
      rw [ho] at hres
      simp only at hres
      simp [hres, Except.map]
    | ok rr =>
      cases ho : embedLoop eS i ys
      rw [ho] at hres
      simp only at hres
      simp [hres, Except.map]
  | cons t xs ih =>
    intro ys i r h
    cases ht : eS t with
    | error e => simp [embedLoop, ht] at h
    | ok v =>
      simp only [embedLoop, ht] at h ⊢
      simp only [List.append_eq]
      cases hres : (embedLoop eS (i + 1) xs).res with
      | error e2 => rw [hres] at h; simp [Except.map] at h
      | ok rr =>
        rw [hres] at h
        simp only [Except.map, Except.ok.injEq] at h
        rw [ih ys (i + 1) rr hres]
        have hidx : i + 1 + xs.length = i + (xs.length + 1) := by omega
        simp only [List.length_cons, hidx, ← h]
        cases hres2 : (embedLoop eS (i + (xs.length + 1)) ys).res with
        | error e3 => simp [hres2, Except.map]
        | ok r3 => simp [hres2, Except.map]

/-- Helper: when the primitive succeeds on every input (with value `g t`),
the loop returns the results in input order, calls the primitive once per
element in order, and logs nothing. -/
theorem embedLoop_all_ok (eS : String → Except String (List α)) (g : String → List α) :
    ∀ (ts : List String), (∀ t ∈ ts, eS t = .ok (g t)) →
      ∀ i, embedLoop eS i ts = ⟨.ok (ts.map g), ts, []⟩ := by
  intro ts
  induction ts with
  | nil => intro _ i; rfl
  | cons t ts ih =>
    intro h i
    have ht : eS t = .ok (g t) := h t (List.mem_cons_self t ts)
    simp only [embedLoop, ht]
    rw [ih (fun u hu => h u (List.mem_cons_of_mem t hu)) (i + 1)]
    simp [Except.map]

/-- Helper: when the primitive succeeds on the first `k` inputs and fails
on the `k`-th one with `w`, the loop stops there: it reports the error at
absolute index `i + k`, has called the primitive exactly on the first
`k + 1` inputs in order, and has logged exactly the failing text's
preview. -/
theorem embedLoop_first_error (eS : String → Except String (List α)) :
    ∀ (ts : List String) (k : Nat) (w : String),
      (∀ t ∈ ts.take k, ∃ v, eS t = .ok v) →
      k < ts.length →
      eS (ts.getD k "") = .error w →
      ∀ i, embedLoop eS i ts =
        ⟨.error ⟨i + k, w⟩, ts.take (k + 1), [getTextPreview (ts.getD k "")]⟩ := by
  intro ts
  induction ts with
  | nil => intro k w _ hk _ i; simp at hk
  | cons t ts ih =>
    intro k w hok hk herr i
    cases k with
    | zero =>
      simp only [List.getD_cons_zero] at herr ⊢
      simp [embedLoop, herr]
    | succ k =>
      obtain ⟨v, hv⟩ := hok t (by simp)
      simp only [embedLoop, hv]
      rw [ih k w (fun u hu => hok u (by simp [hu]))
        (by simpa using hk) (by simpa using herr) (i + 1)]
      have hidx : i + 1 + k = i + (k + 1) := by omega
      simp [Except.map, hidx, List.getD_cons_succ]

/-- C2: `Embed` invokes the single-item primitive once per element of the
input, in input order, and when every call succeeds it returns exactly the
per-element results in input order with nothing logged; `Embed` on the
empty sequence returns an empty result with no error and makes no
primitive call. -/
theorem embed_order_preserving (e : OllamaEmbedder α)
    (api : String → Except String (List α)) (g : String → List α)
    (texts : List String) (h : ∀ t ∈ texts, api t = .ok (g t)) :
    e.Embed api texts = ⟨.ok (texts.map g), texts, []⟩ ∧
    e.Embed api [] = ⟨.ok [], [], []⟩ := by
  constructor
  · unfold OllamaEmbedder.Embed
    exact embedLoop_all_ok (embedSingle api) g texts
      (fun t ht => by simp [embedSingle, h t ht]) 0
  · rfl

/-- Witness for `embed_order_preserving`: a two-text input whose primitive
always returns `[1, 2]`. -/
theorem embed_order_preserving_witness :
    (∀ t ∈ (["a", "b"] : List String),
      (fun _ : String => (Except.ok [1, 2] : Except String (List Int))) t =
        Except.ok ((fun _ : String => ([1, 2] : List Int)) t)) ∧
    (OllamaEmbedder.Embed ⟨"http://localhost:11434", "m", 0⟩
        (fun _ : String => Except.ok ([1, 2] : List Int)) ["a", "b"] =
      ⟨.ok [[1, 2], [1, 2]], ["a", "b"], []⟩ ∧
     OllamaEmbedder.Embed ⟨"http://localhost:11434", "m", 0⟩
        (fun _ : String => Except.ok ([1, 2] : List Int)) [] =
      ⟨.ok [], [], []⟩) := by
  refine ⟨fun t _ => rfl, ?_⟩
  exact embed_order_preserving ⟨"http://localhost:11434", "m", 0⟩
    (fun _ => Except.ok [1, 2]) (fun _ => [1, 2]) ["a", "b"] (fun t _ => rfl)

/-- Helper: a text preview never exceeds 50 characters. -/
theorem getTextPreview_length_le (x : String) : (getTextPreview x).length ≤ 50 := by
  unfold getTextPreview
  split_ifs with h
  · exact h
  · rw [String.length_append]
    have h1 : (String.mk (x.data.take 47)).length = (x.data.take 47).length := rfl
    rw [h1, List.length_take]
    have h3 : ("..." : String).length = 3 := rfl
    rw [h3]
    omega

/-- Helper: a text longer than 50 characters is previewed by exactly 50
characters whose last three are the truncation marker. -/
theorem getTextPreview_long (y : String) (hy : 50 < y.length) :
    (getTextPreview y).length = 50 ∧
    (getTextPreview y).data.drop 47 = ['.', '.', '.'] := by
  have hly : y.data.length = y.length := rfl
  have hlen : (y.data.take 47).length = 47 := by
    rw [List.length_take]
    omega
  unfold getTextPreview
  rw [if_neg (by omega)]
  constructor
  · rw [String.length_append]
    have h1 : (String.mk (y.data.take 47)).length = (y.data.take 47).length := rfl
    rw [h1, hlen]
    rfl
  · have hdata : (String.mk (y.data.take 47) ++ ("..." : String)).data =
        y.data.take 47 ++ ['.', '.', '.'] := rfl
    rw [hdata]
    have hdr := List.drop_left (y.data.take 47) ['.', '.', '.']
    rw [hlen] at hdr
    exact hdr

/-- The 60-character text used in concrete failure scenarios. -/
def longText : String := String.mk (List.replicate 60 'x')

/-- C4 counterexample: with a primitive that fails with `boom` on a
60-character text, `Embed` returns the error wrapping index 0 and the
underlying error, but the error's message does not contain the text's
truncated preview — the preview appears only in the log record. -/
theorem embed_error_without_preview_cex :
    (OllamaEmbedder.Embed ⟨"u", "m", 0⟩
        (fun _ : String => (Except.error "boom" : Except String (List Int)))
        [longText]).res = .error ⟨0, "failed to embed text: boom"⟩ ∧
    ¬ ((getTextPreview longText).data <:+:
        (EmbedError.message ⟨0, "failed to embed text: boom"⟩).data) ∧
    (OllamaEmbedder.Embed ⟨"u", "m", 0⟩
        (fun _ : String => (Except.error "boom" : Except String (List Int)))
        [longText]).loggedPreviews = [getTextPreview longText] := by
  exact ⟨rfl, by decide, rfl⟩

/-- C4 (amended): when the primitive first fails at index `i` (succeeding
on every earlier element), `Embed` returns an error wrapping the
zero-based index `i` and the underlying error, with a nil result (never a
prefix of results); it calls the primitive only on the first `i + 1`
elements; the truncated preview of the failing text — at most 50
characters, exactly 50 and ending in the `...` marker when the text
exceeds 50 — is emitted to the error log, not included in the returned
error. -/
theorem embed_fail_fast (e : OllamaEmbedder α)
    (api : String → Except String (List α)) (texts : List String)
    (i : Nat) (w : String) (x y : String)
    (hok : ∀ t ∈ texts.take i, ∃ v, api t = .ok v)
    (hi : i < texts.length)
    (herr : api (texts.getD i "") = .error w)
    (hy : 50 < y.length) :
    (e.Embed api texts).res = .error ⟨i, "failed to embed text: " ++ w⟩ ∧
    (e.Embed api texts).calls = texts.take (i + 1) ∧
    (e.Embed api texts).loggedPreviews = [getTextPreview (texts.getD i "")] ∧
    (getTextPreview x).length ≤ 50 ∧
    (getTextPreview y).length = 50 ∧
    (getTextPreview y).data.drop 47 = ['.', '.', '.'] := by
  have h := embedLoop_first_error (embedSingle api) texts i
    ("failed to embed text: " ++ w)
    (fun t ht => by
      obtain ⟨v, hv⟩ := hok t ht
      exact ⟨v, by simp [embedSingle, hv]⟩)
    hi (by unfold embedSingle; rw [herr]) 0
  unfold OllamaEmbedder.Embed
  rw [h]
  exact ⟨by simp, rfl, rfl, getTextPreview_length_le x,
    (getTextPreview_long y hy).1, (getTextPreview_long y hy).2⟩

/-- A primitive that fails exactly on the text `"c"`. -/
def apiFailOnC : String → Except String (List Int) :=
  fun t => if t = "c" then .error "boom" else .ok [1]

/-- Witness for `embed_fail_fast`: failure at index 2 of a three-element
input, with a short and a 60-character text for the preview facts. -/
theorem embed_fail_fast_witness :
    (∀ t ∈ (["a", "b", "c"] : List String).take 2, ∃ v, apiFailOnC t = .ok v) ∧
    (2 < (["a", "b", "c"] : List String).length) ∧
    (apiFailOnC ((["a", "b", "c"] : List String).getD 2 "") = .error "boom") ∧
    (50 < longText.length) ∧
    ((OllamaEmbedder.Embed ⟨"u", "m", 0⟩ apiFailOnC ["a", "b", "c"]).res =
        .error ⟨2, "failed to embed text: " ++ "boom"⟩ ∧
      (OllamaEmbedder.Embed ⟨"u", "m", 0⟩ apiFailOnC ["a", "b", "c"]).calls =
        (["a", "b", "c"] : List String).take 3 ∧
      (OllamaEmbedder.Embed ⟨"u", "m", 0⟩ apiFailOnC ["a", "b", "c"]).loggedPreviews =
        [getTextPreview ((["a", "b", "c"] : List String).getD 2 "")] ∧
      (getTextPreview "short").length ≤ 50 ∧
      (getTextPreview longText).length = 50 ∧
      (getTextPreview longText).data.drop 47 = ['.', '.', '.']) := by
  have hok : ∀ t ∈ (["a", "b", "c"] : List String).take 2,
      ∃ v, apiFailOnC t = Except.ok v := by
    intro t ht
    have ht2 : t ∈ (["a", "b"] : List String) := ht
    rcases List.mem_cons.mp ht2 with rfl | ht3
    · exact ⟨[1], rfl⟩
    · rcases List.mem_cons.mp ht3 with rfl | ht4
      · exact ⟨[1], rfl⟩
      · exact absurd ht4 (List.not_mem_nil t)
  refine ⟨hok, by decide, rfl, by decide, ?_⟩
  exact embed_fail_fast ⟨"u", "m", 0⟩ apiFailOnC ["a", "b", "c"] 2 "boom"
    "short" longText hok (by decide) rfl (by decide)

/-- Helper: the `Health` method body assigns no field of the receiver, for
any transport outcome. -/
theorem health_preserves (e : OllamaEmbedder α)
    (transport : String → Except String Nat) :
    (e.Health transport).1 = e := by
  simp only [OllamaEmbedder.Health]
  cases transport (e.baseURL ++ "/api/version") with
  | error err => rfl
  | ok status => by_cases h2 : status ≠ 200 <;> simp [h2]

/-- C8: a backend successfully constructed by `NewOllamaEmbedder` issued
exactly one probe embedding call, with the fixed sentinel `"test"`, and
cached that call's result length as its dimension; `GetDimension` returns
the cached dimension, and `Health` — succeeding or failing — never mutates
the receiver, so dimension and model name survive any later health check. -/
theorem newOllamaEmbedder_dimension_stable
    (transport transport2 : String → Except String Nat)
    (api : String → Except String (List α)) (config : Config)
    (e : OllamaEmbedder α) (v : List α)
    (h : (NewOllamaEmbedder transport api config).result = .ok e)
    (hv : api "test" = .ok v) :
    (NewOllamaEmbedder transport api config).embedApiCalls = ["test"] ∧
    e.dimension = v.length ∧
    e.GetDimension = e.dimension ∧
    e.GetModel = config.Model ∧
    (e.Health transport2).1 = e ∧
    ((e.Health transport2).1).GetDimension = e.dimension ∧
    ((e.Health transport2).1).GetModel = e.GetModel := by
  simp only [NewOllamaEmbedder] at h ⊢
  cases hh : ((⟨trimSuffixSlash config.BaseURL, config.Model, 0⟩ :
      OllamaEmbedder α).Health transport).2 with
  | error err =>
    rw [hh] at h
    simp at h
  | ok u =>
    unfold OllamaEmbedder.detectDimension embedSingle at h ⊢
    rw [hv] at h ⊢
    rw [hh] at h
    dsimp only at h ⊢
    have he : e = ⟨trimSuffixSlash config.BaseURL, config.Model, v.length⟩ := by
      simpa [eq_comm] using h
    subst he
    refine ⟨rfl, rfl, rfl, rfl, health_preserves _ transport2, ?_, ?_⟩
    · rw [health_preserves _ transport2]
      exact rfl
    · rw [health_preserves _ transport2]

/-- Witness for `newOllamaEmbedder_dimension_stable`: a healthy transport,
a 4-element probe embedding (the repository test's scenario), and a later
failing health check. -/
theorem newOllamaEmbedder_dimension_stable_witness :
    ((NewOllamaEmbedder (fun _ => Except.ok 200)
        (fun _ => (Except.ok [0, 1, 2, 3] : Except String (List Int)))
        DefaultConfig).result =
      .ok ⟨"http://localhost:11434", "qwen2.5:7b", 4⟩) ∧
    ((fun _ : String => (Except.ok [0, 1, 2, 3] : Except String (List Int)))
        "test" = .ok [0, 1, 2, 3]) ∧
    ((NewOllamaEmbedder (fun _ => Except.ok 200)
        (fun _ => (Except.ok [0, 1, 2, 3] : Except String (List Int)))
        DefaultConfig).embedApiCalls = ["test"] ∧
      (⟨"http://localhost:11434", "qwen2.5:7b", 4⟩ :
          OllamaEmbedder Int).dimension = [0, 1, 2, 3].length ∧
      (⟨"http://localhost:11434", "qwen2.5:7b", 4⟩ :
          OllamaEmbedder Int).GetDimension =
        (⟨"http://localhost:11434", "qwen2.5:7b", 4⟩ :
          OllamaEmbedder Int).dimension ∧
      (⟨"http://localhost:11434", "qwen2.5:7b", 4⟩ :
          OllamaEmbedder Int).GetModel = DefaultConfig.Model ∧
      ((⟨"http://localhost:11434", "qwen2.5:7b", 4⟩ :
          OllamaEmbedder Int).Health (fun _ => Except.error "down")).1 =
        ⟨"http://localhost:11434", "qwen2.5:7b", 4⟩ ∧
      (((⟨"http://localhost:11434", "qwen2.5:7b", 4⟩ :
          OllamaEmbedder Int).Health (fun _ => Except.error "down")).1).GetDimension =
        (⟨"http://localhost:11434", "qwen2.5:7b", 4⟩ :
          OllamaEmbedder Int).dimension ∧
      (((⟨"http://localhost:11434", "qwen2.5:7b", 4⟩ :
          OllamaEmbedder Int).Health (fun _ => Except.error "down")).1).GetModel =
        (⟨"http://localhost:11434", "qwen2.5:7b", 4⟩ :
          OllamaEmbedder Int).GetModel) := by
  refine ⟨rfl, rfl, ?_⟩
  exact newOllamaEmbedder_dimension_stable (fun _ => Except.ok 200)
    (fun _ => Except.error "down")
    (fun _ => (Except.ok [0, 1, 2, 3] : Except String (List Int)))
    DefaultConfig ⟨"http://localhost:11434", "qwen2.5:7b", 4⟩ [0, 1, 2, 3]
    rfl rfl

/-- Helper: for a positive chunk size, advancing the Go loop index by the
chunk size corresponds to dropping the chunk. -/
theorem drop_chunk_eq (t : String) (ts : List String) (bs : Nat)
    (hbs : 1 ≤ bs) : ts.drop (bs - 1) = (t :: ts).drop bs := by
  cases bs with
  | zero => omega
  | succ k => simp

/-- Helper: with a positive chunk size, the batch loop makes exactly the
primitive calls and log writes of the plain loop, returns the same
embeddings on success, and on failure returns the same underlying error
with the index reduced modulo the chunk size (its position inside the
failing chunk). -/
theorem batchLoop_spec (eS : String → Except String (List α)) (bs : Nat)
    (hbs : 1 ≤ bs) :
    ∀ (n : Nat) (ts : List String), ts.length ≤ n →
      (batchLoop eS bs ts).calls = (embedLoop eS 0 ts).calls ∧
      (batchLoop eS bs ts).loggedPreviews = (embedLoop eS 0 ts).loggedPreviews ∧
      (batchLoop eS bs ts).res =
        (match (embedLoop eS 0 ts).res with
          | .ok r => .ok r
          | .error err => .error ⟨err.index % bs, err.wrapped⟩) := by
  intro n
  induction n with
  | zero =>
    intro ts hlen
    have hnil : ts = [] := List.eq_nil_of_length_eq_zero (Nat.le_zero.mp hlen)
    subst hnil
    refine ⟨?_, ?_, ?_⟩ <;> simp [batchLoop, embedLoop]
  | succ n ihn =>
    intro ts hlen
    match ts with
    | [] => refine ⟨?_, ?_, ?_⟩ <;> simp [batchLoop, embedLoop]
    | t :: ts' =>
      rw [batchLoop]
      dsimp only
      have hrest : ts'.drop (bs - 1) = (t :: ts').drop bs := drop_chunk_eq t ts' bs hbs
      have hsplit : (t :: ts').take bs ++ (t :: ts').drop bs = t :: ts' :=
        List.take_append_drop bs (t :: ts')
      have hE : embedLoop eS 0 ((t :: ts').take bs ++ (t :: ts').drop bs) =
          embedLoop eS 0 (t :: ts') := by rw [hsplit]
      rw [← hE]
      have hchunklen : ((t :: ts').take bs).length ≤ bs := by
        rw [List.length_take]
        omega
      cases hc : (embedLoop eS 0 ((t :: ts').take bs)).res with
      | error err =>
        rw [embedLoop_append_error eS ((t :: ts').take bs) ((t :: ts').drop bs) 0 err hc]
        rw [hc]
        obtain ⟨hlow, hup⟩ := embedLoop_error_lt eS ((t :: ts').take bs) 0 err hc
        have hmod : err.index % bs = err.index :=
          Nat.mod_eq_of_lt (by omega)
        cases err with
        | mk j w =>
          simp only at hmod
          refine ⟨rfl, rfl, ?_⟩
          dsimp only
          rw [hmod]
      | ok r =>
        rw [embedLoop_append_ok eS ((t :: ts').take bs) ((t :: ts').drop bs) 0 r hc]
        rw [embedLoop_eq_shift eS ((t :: ts').drop bs) (0 + ((t :: ts').take bs).length)]
        obtain ⟨hcc, hcl⟩ := embedLoop_ok_calls eS ((t :: ts').take bs) 0 r hc
        have hrlen : (ts'.drop (bs - 1)).length ≤ n := by
          rw [List.length_drop]
          simp only [List.length_cons] at hlen
          omega
        obtain ⟨ihc, ihl, ihr⟩ := ihn (ts'.drop (bs - 1)) hrlen
        rw [hrest] at ihc ihl ihr
        cases hres2 : (embedLoop eS 0 ((t :: ts').drop bs)).res with
        | ok r2 =>
          rw [hres2] at ihr
          dsimp only at ihr
          refine ⟨?_, ?_, ?_⟩
          · dsimp only
            simp only [EmbedOutcome.shiftIdx]
            rw [hrest, ihc, hcc]
          · dsimp only
            rw [hrest, ihl, hcl]
            simp [EmbedOutcome.shiftIdx]
          · dsimp only
            rw [hrest, ihr]
            simp [EmbedOutcome.shiftIdx, hres2, Except.map]
        | error e2 =>
          rw [hres2] at ihr
          dsimp only at ihr
          have hrne : (t :: ts').drop bs ≠ [] := by
            intro hn
            rw [hn] at hres2
            simp [embedLoop] at hres2
          have hlenge : bs < (t :: ts').length := by
            by_contra hge
            exact hrne (List.drop_eq_nil_of_le (by omega))
          have hchunkbs : ((t :: ts').take bs).length = bs := by
            rw [List.length_take]
            omega
          refine ⟨?_, ?_, ?_⟩
          · dsimp only
            simp only [EmbedOutcome.shiftIdx]
            rw [hrest, ihc, hcc]
          · dsimp only
            rw [hrest, ihl, hcl]
            simp [EmbedOutcome.shiftIdx]
          · dsimp only
            rw [hrest, ihr]
            cases e2 with
            | mk j w =>
              simp only [EmbedOutcome.shiftIdx, hres2, Except.map]
              simp only [Nat.zero_add, hchunkbs]
              rw [Nat.add_mod_right]

/-- C3 counterexample: with a primitive failing on `"c"`,
`Embed(["a","b","c"])` fails with index 2 while
`BatchEmbed(["a","b","c"], 1)` fails with index 0 — the position inside
the failing chunk — so the two calls do not return the same error. -/
theorem batchEmbed_error_differs_cex :
    (OllamaEmbedder.Embed ⟨"u", "m", 0⟩ apiFailOnC ["a", "b", "c"]).res =
      .error ⟨2, "failed to embed text: boom"⟩ ∧
    (OllamaEmbedder.BatchEmbed ⟨"u", "m", 0⟩ apiFailOnC ["a", "b", "c"] 1).res =
      .error ⟨0, "failed to embed text: boom"⟩ ∧
    (OllamaEmbedder.BatchEmbed ⟨"u", "m", 0⟩ apiFailOnC ["a", "b", "c"] 1).res ≠
      (OllamaEmbedder.Embed ⟨"u", "m", 0⟩ apiFailOnC ["a", "b", "c"]).res := by
  have h1 : (embedLoop (embedSingle apiFailOnC) 0 ["a", "b", "c"]).res =
      .error ⟨2, "failed to embed text: boom"⟩ := rfl
  have h := (batchLoop_spec (embedSingle apiFailOnC) 1 le_rfl 3
    ["a", "b", "c"] (by decide)).2.2
  rw [h1] at h
  dsimp only at h
  have h2 : (OllamaEmbedder.BatchEmbed ⟨"u", "m", 0⟩ apiFailOnC
      ["a", "b", "c"] 1).res = .error ⟨0, "failed to embed text: boom"⟩ := by
    have h2m : (2 : Nat) % 1 = 0 := by decide
    rw [h2m] at h
    exact h
  refine ⟨h1, h2, ?_⟩
  rw [h2]
  unfold OllamaEmbedder.Embed
  rw [h1]
  simp

/-- C3 (amended): for every batch size, `BatchEmbed` makes exactly the
primitive calls and log writes of `Embed` and returns the same embeddings
on success; a non-positive batch size treats the whole input as one chunk,
so the outcome is exactly `Embed`'s; on failure the returned error wraps
the same underlying error but its index is the failing element's position
inside its chunk — the global index reduced modulo the normalised chunk
size — which coincides with `Embed`'s index exactly when the failure lies
in the first chunk. -/
theorem batchEmbed_refines_embed (e : OllamaEmbedder α)
    (api : String → Except String (List α)) (texts : List String)
    (batchSize : Int) :
    (e.BatchEmbed api texts batchSize).calls = (e.Embed api texts).calls ∧
    (e.BatchEmbed api texts batchSize).loggedPreviews =
      (e.Embed api texts).loggedPreviews ∧
    (e.BatchEmbed api texts batchSize).res =
      (match (e.Embed api texts).res with
        | .ok r => .ok r
        | .error err =>
          .error ⟨err.index %
              (if batchSize ≤ 0 then texts.length else batchSize.toNat),
            err.wrapped⟩) := by
  unfold OllamaEmbedder.BatchEmbed OllamaEmbedder.Embed
  dsimp only
  by_cases hb : batchSize ≤ 0
  · rw [if_pos hb]
    cases texts with
    | nil => refine ⟨?_, ?_, ?_⟩ <;> simp [batchLoop, embedLoop]
    | cons t ts =>
      exact batchLoop_spec (embedSingle api) (t :: ts).length
        (by simp) (t :: ts).length (t :: ts) le_rfl
  · rw [if_neg hb]
    exact batchLoop_spec (embedSingle api) batchSize.toNat (by omega)
      texts.length texts le_rfl
